import Mathlib

/-!
Verification of the short-interpretter repository: a shallow embedding of
the lexer (Lexer.cpp), recursive-descent parser (Parser.cpp), bytecode
emitter and stack-machine evaluator (Interpret.cpp / Interpret.h), and the
Compiler driver (lang.cpp), together with theorems settling the frozen
claims about the natural-language specification.

Modelling conventions:
- C++ `std::string` indexing is defined for indices `i <= size` (index
  `size` yields the null terminator) and undefined behaviour past that;
  `std::vector` indexing is undefined at or past `size`.  Vector reads
  go through the structural `listAt`, and every undefined out-of-range
  read surfaces as a dedicated outcome (`oobRead` / `oob`) instead of a
  value.
- Loops whose termination depends on runtime data are given explicit
  fuel; a `outOfFuel` outcome for every fuel value is the embedding of a
  diverging C++ loop.
- Signed 64-bit arithmetic in the evaluator is modelled as exact `Int`
  arithmetic; the inputs exercised by the claims stay far below the
  `int64_t` range (a C++ signed overflow would be undefined behaviour).
- `SourceLocation` fields are `int32_t` in the source, modelled as `Int`
  with the `-1` sentinel; the lexer counters are nonnegative `int64_t`
  (guarded by `SafeSignedInc`), modelled as `Nat`.
-/

namespace lang

/-- Zero-indexed row/column, `-1` the "no location" sentinel
(Lexer.h, `SourceLocation`). -/
structure SourceLocation where
  row : Int := -1
  col : Int := -1
deriving DecidableEq, Repr

/-- Token kinds (Lexer.h, `TokenKind`).  The header in the repository
declares only the first six constructors; `TOK_DEF` and `TOK_SEMICOL`
are used by Lexer.cpp / Parser.cpp / lang.cpp but their declarations are
missing from the headers.  Modelled from the spec: the `def` keyword and
the `;` statement-terminator are token kinds of their own. -/
inductive TokenKind where
  | TOK_NONE
  | TOK_LPAR
  | TOK_RPAR
  | TOK_INT
  | TOK_STR
  | TOK_ID
  | TOK_DEF
  | TOK_SEMICOL
deriving DecidableEq, Repr

/-- A token: kind, source location, literal text (Lexer.h, `Token`). -/
structure Token where
  kind : TokenKind
  loc : SourceLocation := {}
  chars : String
deriving DecidableEq, Repr

/-- `Token::operator==` compares kind and text and ignores the location. -/
def Token.cppEq (a b : Token) : Bool :=
  decide (a.kind = b.kind) && decide (a.chars = b.chars)

/-- C `isspace` on the default locale, for the ASCII inputs at hand. -/
def isspace (c : Char) : Bool :=
  c = ' ' || c = '\t' || c = '\n' || c = '\x0b' || c = '\x0c' || c = '\r'

/-- C `isdigit`. -/
def isdigit (c : Char) : Bool := decide ('0' ≤ c) && decide (c ≤ '9')

/-- C `isalpha` on the default locale. -/
def isalpha (c : Char) : Bool :=
  (decide ('A' ≤ c) && decide (c ≤ 'Z')) || (decide ('a' ≤ c) && decide (c ≤ 'z'))

/-- Structural list indexing, the embedding of `operator[]` on the
token and bytecode vectors: `some` exactly on in-bounds indices, `none`
on the undefined out-of-range accesses. -/
def listAt {α : Type} : List α → Nat → Option α
  | [], _ => none
  | x :: _, 0 => some x
  | _ :: rest, n + 1 => listAt rest n

/-- The string-literal loop of `ReadTokens` (Lexer.cpp lines 58-62): keep
consuming characters until a closing quote is read, walking the suffix
of the input that starts at index `i`.  The loop has no bounds check:
when the suffix is exhausted before a closing quote, the C++ code reads
the null terminator at index `size` (defined, and never equal to `"`)
and then indexes past the end of the `std::string` — undefined
behaviour, `none` here. -/
def ReadStrChars : List Char → Nat → List Char → Option (List Char × Nat)
  | [], _, _ => none
  | c :: rest, i, acc =>
    if c = '"' then some (acc, i)
    else ReadStrChars rest (i + 1) (acc ++ [c])

/-- Outcome of lexing.  `ok`/`fail` mirror `LexStatus` together with the
by-reference `result` vector; `oobRead` marks the undefined out-of-range
string read, and `outOfFuel` for every fuel is a diverging lexer loop. -/
inductive LexRes where
  | ok (tokens : List Token)
  | fail (loc : SourceLocation) (c : Char) (tokens : List Token)
  | oobRead
  | outOfFuel
deriving DecidableEq, Repr

/-- One-to-one embedding of the `while` loop of `ReadTokens`
(Lexer.cpp lines 35-114).  Note two source facts embedded faithfully:
the lexer has no case for `;` (it falls into the final `else`, a lex
failure), and the newline branch executes `current = 0;` — it resets the
input cursor, not the column counter. -/
def ReadTokensAux (fuel : Nat) (input : List Char)
    (current col row : Nat) (result : List Token) : LexRes :=
  match fuel with
  | 0 => .outOfFuel
  | fuel + 1 =>
    match listAt input current with
    | none => .ok result
    | some c =>
      let loc : SourceLocation := ⟨(row : Int), (col : Int)⟩
      if c = '(' then
        ReadTokensAux fuel input (current + 1) (col + 1) row
          (result ++ [⟨.TOK_LPAR, loc, "("⟩])
      else if c = ')' then
        ReadTokensAux fuel input (current + 1) (col + 1) row
          (result ++ [⟨.TOK_RPAR, loc, ")"⟩])
      else if c = '"' then
        match ReadStrChars (input.drop (current + 1)) (current + 1) [] with
        | none => .oobRead
        | some (str, closeIdx) =>
          ReadTokensAux fuel input (closeIdx + 1) (col + str.length + 2) row
            (result ++ [⟨.TOK_STR, loc, String.mk str⟩])
      else if isspace c then
        if c = '\n' then
          ReadTokensAux fuel input 0 col (row + 1) result
        else
          ReadTokensAux fuel input (current + 1) (col + 1) row result
      else if isdigit c then
        let run := (input.drop current).takeWhile isdigit
        ReadTokensAux fuel input (current + run.length) (col + run.length) row
          (result ++ [⟨.TOK_INT, loc, String.mk run⟩])
      else if isalpha c then
        let run := (input.drop current).takeWhile isalpha
        let kind : TokenKind := if String.mk run = "def" then .TOK_DEF else .TOK_ID
        ReadTokensAux fuel input (current + run.length) (col + run.length) row
          (result ++ [⟨kind, loc, String.mk run⟩])
      else
        .fail loc c result

/-- `ReadTokens` (Lexer.cpp).  Every non-returning loop iteration other
than the newline one advances `current` by at least one, so
`input.length + 1` iterations are enough for every terminating run. -/
def ReadTokens (input : String) : LexRes :=
  ReadTokensAux (input.toList.length + 1) input.toList 0 0 0 []

/-- `LexStatus::getFailingCharacter` (Lexer.h lines 75-79) is declared
with return type `bool`: the stored `char` is converted to `bool`
(nonzero test) on the way out.  `none` models the assertion firing on a
successful status. -/
def getFailingCharacter (res : LexRes) : Option Bool :=
  match res with
  | .fail _ c _ => some (decide (c ≠ '\x00'))
  | _ => none

/-- `LexStatus::getFailingLocation` (Lexer.h lines 80-83). -/
def getFailingLocation (res : LexRes) : Option SourceLocation :=
  match res with
  | .fail loc _ _ => some loc
  | _ => none

/-- Modelled from the spec: the binary-operator kind enum (`BINOP_ADD`,
`BINOP_SUB`) is used by Parser.cpp and lang.cpp but its declaration is
missing from the headers in src; the spec names `add` and `sub` as the
two built-in binary operators. -/
inductive BinOpKind where
  | BINOP_ADD
  | BINOP_SUB
deriving DecidableEq, Repr

/-- The AST (Parser.h `Node` hierarchy).  `stmt` and `binop` are
constructed by Parser.cpp and lang.cpp (`Stmt`, `BinOp`) but their class
declarations are missing from Parser.h; modelled from the spec
(statements and binary operations are AST node kinds).  Each node's
optional `SourceLocation` is ignored both by `Node::equals` and by the
bytecode emitter, so it is omitted here. -/
inductive Node where
  | module (nodes : List Node)
  | stmt (inner : Node)
  | int (val : Int)
  | str (val : String)
  | id (name : String)
  | assign (dst src : Node)
  | binop (kind : BinOpKind) (lhs rhs : Node)
  | call (func : Node) (args : List Node)
deriving Repr

/-- Parse failure kinds (Parser.h `ParseStatusKind`).  The last two are
used by Parser.cpp (`PARSE_FAIL_TOO_MANY_BINOP_OPERANDS`,
`PARSE_FAIL_MISSING_SEMICOL`) but missing from the header's enum;
modelled from the spec: a dedicated too-many-binary-operator-operands
kind and a missing-statement-terminator kind. -/
inductive ParseStatusKind where
  | PARSE_FAIL
  | PARSE_FAIL_NO_LPAR
  | PARSE_FAIL_NO_RPAR
  | PARSE_FAIL_TOO_MANY_BINOP_OPERANDS
  | PARSE_FAIL_MISSING_SEMICOL
deriving DecidableEq, Repr

/-- Outcome of a parsing function: success with the produced node and
the advanced cursor, a `ParseStatus` failure carrying the offending
location and token, an out-of-range `std::vector` read (undefined
behaviour), the `lang_unreachable` aborts of `ReadNode`, or fuel
exhaustion (the embedding artifact for the bounded recursion). -/
inductive ParseRes where
  | ok (node : Node) (current : Nat)
  | err (kind : ParseStatusKind) (loc : SourceLocation) (tok : Token)
  | oob
  | bug
  | outOfFuel
deriving Repr

/-- `ReadInt` (Parser.cpp lines 99-106): `std::stol` on the token text,
narrowed to `int32_t`.  Lexer-produced `TOK_INT` texts are nonempty
digit runs; on any other text `stol` would throw (modelled as `bug`).
The `long` to `int32_t` narrowing wraps modulo `2^32`. -/
def stolToInt32 (s : String) : Option Int :=
  if s.toList ≠ [] ∧ s.toList.all isdigit then
    some ((s.toList.foldl (fun n c => n * 10 + (c.toNat - '0'.toNat)) 0 + 2 ^ 31) % 2 ^ 32 - 2 ^ 31)
  else
    none

mutual

/-- `ReadNode` (Parser.cpp lines 150-181).  The `while` is degenerate:
every switch case returns, so it is an `if` on `current < input.size()`;
falling out returns the generic failure built from `input.back()`. -/
def ReadNode (fuel : Nat) (input : List Token) (current : Nat) : ParseRes :=
  match fuel with
  | 0 => .outOfFuel
  | fuel + 1 =>
    match listAt input current with
    | some tok =>
      match tok.kind with
      | .TOK_LPAR => ReadCall fuel input current
      | .TOK_INT =>
        match stolToInt32 tok.chars with
        | some v => .ok (.int v) (current + 1)
        | none => .bug
      | .TOK_STR => .ok (.str tok.chars) (current + 1)
      | .TOK_ID => .ok (.id tok.chars) (current + 1)
      | .TOK_RPAR => .err .PARSE_FAIL_NO_LPAR tok.loc tok
      | .TOK_DEF => ReadDefine fuel input current
      | .TOK_NONE => .bug
      | .TOK_SEMICOL => .bug
    | none =>
      match input.getLast? with
      | some tok => .err .PARSE_FAIL tok.loc tok
      | none => .oob
termination_by structural fuel

/-- `ReadBinOpOperands` (Parser.cpp lines 23-47).  Entered with
`current` just past the `add`/`sub` identifier; reads
`input[current].loc` immediately and `input[current]` again after the
two operands with no bounds check. -/
def ReadBinOpOperands (fuel : Nat) (input : List Token) (current : Nat)
    (kind : BinOpKind) : ParseRes :=
  match fuel with
  | 0 => .outOfFuel
  | fuel + 1 =>
    match listAt input current with
    | none => .oob
    | some _ =>
      match ReadNode fuel input current with
      | .ok lhs cur1 =>
        match ReadNode fuel input cur1 with
        | .ok rhs cur2 =>
          match listAt input cur2 with
          | none => .oob
          | some tok =>
            if tok.kind ≠ .TOK_RPAR then
              .err .PARSE_FAIL_TOO_MANY_BINOP_OPERANDS tok.loc tok
            else
              .ok (.binop kind lhs rhs) (cur2 + 1)
        | other => other
      | other => other
termination_by structural fuel

/-- The argument loop of `ReadCall` (Parser.cpp lines 71-86). -/
def ReadCallArgs (fuel : Nat) (input : List Token) (current : Nat)
    (func : Node) (args : List Node) : ParseRes :=
  match fuel with
  | 0 => .outOfFuel
  | fuel + 1 =>
    match listAt input current with
    | some tok =>
      if tok.kind = .TOK_RPAR then
        .ok (.call func args) (current + 1)
      else
        match ReadNode fuel input current with
        | .ok arg cur1 => ReadCallArgs fuel input cur1 func (args ++ [arg])
        | other => other
    | none =>
      match input.getLast? with
      | some tok => .err .PARSE_FAIL_NO_RPAR tok.loc tok
      | none => .oob
termination_by structural fuel

/-- `ReadCall` (Parser.cpp lines 49-97): consume `(`, read the callee;
a callee identifier `add`/`sub` switches to the binary-operator parse,
anything else collects arguments until a closing paren. -/
def ReadCall (fuel : Nat) (input : List Token) (current : Nat) : ParseRes :=
  match fuel with
  | 0 => .outOfFuel
  | fuel + 1 =>
    match listAt input current with
    | none => .oob
    | some _ =>
      match ReadNode fuel input (current + 1) with
      | .ok func cur1 =>
        match func with
        | .id fname =>
          if fname = "add" then ReadBinOpOperands fuel input cur1 .BINOP_ADD
          else if fname = "sub" then ReadBinOpOperands fuel input cur1 .BINOP_SUB
          else ReadCallArgs fuel input cur1 (.id fname) []
        | _ => ReadCallArgs fuel input cur1 func []
      | other => other
termination_by structural fuel

/-- `ReadDefine` (Parser.cpp lines 126-148): consume `def`, read the
destination, read the source expression. -/
def ReadDefine (fuel : Nat) (input : List Token) (current : Nat) : ParseRes :=
  match fuel with
  | 0 => .outOfFuel
  | fuel + 1 =>
    match listAt input current with
    | none => .oob
    | some _ =>
      match ReadNode fuel input (current + 1) with
      | .ok dst cur1 =>
        match ReadNode fuel input cur1 with
        | .ok src cur2 => .ok (.assign dst src) cur2
        | other => other
      | other => other
termination_by structural fuel

end

/-- `ReadStmt` (Parser.cpp lines 183-204): one expression followed by a
mandatory `;`. -/
def ReadStmt (fuel : Nat) (input : List Token) (current : Nat) : ParseRes :=
  match fuel with
  | 0 => .outOfFuel
  | fuel + 1 =>
    match listAt input current with
    | none => .oob
    | some _ =>
      match ReadNode fuel input current with
      | .ok inner cur1 =>
        match listAt input cur1 with
        | some tok =>
          if tok.kind ≠ .TOK_SEMICOL then
            .err .PARSE_FAIL_MISSING_SEMICOL tok.loc tok
          else
            .ok (.stmt inner) (cur1 + 1)
        | none =>
          match input.getLast? with
          | some tok => .err .PARSE_FAIL_MISSING_SEMICOL tok.loc tok
          | none => .oob
      | other => other

/-- The statement loop of `ReadModule` (Parser.cpp lines 223-236);
`input.front()` on an empty token vector is an out-of-range read. -/
def ReadModuleAux (fuel : Nat) (input : List Token) (current : Nat)
    (nodes : List Node) : ParseRes :=
  match fuel with
  | 0 => .outOfFuel
  | fuel + 1 =>
    match listAt input current with
    | some _ =>
      match ReadStmt fuel input current with
      | .ok node cur1 => ReadModuleAux fuel input cur1 (nodes ++ [node])
      | other => other
    | none =>
      match listAt input 0 with
      | none => .oob
      | some _ => .ok (.module nodes) current

/-- `ReadModule` (Parser.cpp).  Every recursive call in the parser
either consumes a token first or is a statement/argument loop iteration
that consumes at least one token, so `2 * input.length + 4` fuel covers
every run. -/
def ReadModule (input : List Token) : ParseRes :=
  ReadModuleAux (2 * input.length + 4) input 0 []

/-- A runtime value (`Evaluatable`, Interpret.h): a type tag with one
payload.  Only the integer and string cases are ever stored by the
emitter (the constant pool receives strings via `Evaluatable::GetStr`). -/
inductive EvalValue where
  | int (val : Int)
  | str (val : String)
deriving DecidableEq, Repr

/-- Bytecode slots are a union of `Instruction` and `int64_t`
(Interpret.h, `union ByteCode`); both live in one `Int`.  The enum
values follow Interpret.h's `Instruction` declaration order. -/
def INSTR_PUSH : Int := 0

def INSTR_ADD_OP : Int := 1

def INSTR_SUB_OP : Int := 2

def INSTR_CALL : Int := 3

def INSTR_STORE : Int := 4

/-- `ByteCodeEmitter`'s three append-only outputs (Interpret.h lines
356-358): the symbol-name-to-dense-id map, the bytecode stream and the
constant pool. -/
structure EmitterState where
  symbols : List (String × Nat) := []
  byte_code : List Int := []
  constants : List EvalValue := []
deriving DecidableEq, Repr

/-- `ByteCodeEmitter::uniqueSymbolExists` / `getUniqueSymbolID`
(Interpret.cpp lines 131-139) as one lookup. -/
def lookupSymbol (symbols : List (String × Nat)) (name : String) : Option Nat :=
  (symbols.find? (fun p => decide (p.1 = name))).map (fun p => p.2)

mutual

/-- The bytecode emitter: `ASTVisitor::Visit` dispatch plus the
`ByteCodeEmitter::Visit*` cases (Interpret.cpp lines 97-192).  `none`
is the `getUniqueSymbolID` assertion firing on a name that was never
registered.  Two faithfulness notes:
- `VisitID` (lines 156-173) emits `INSTR_PUSH` followed by the symbol
  id for every identifier that is not `add`/`sub`, in read positions as
  well as store destinations; no load instruction exists in
  Interpret.cpp.
- `ASTVisitor::Visit` (lines 97-112) switches only over the six
  `NodeKind` values declared in Parser.h.  The dispatch and lowering
  for the `Stmt` and `BinOp` nodes produced by Parser.cpp —
  `ByteCodeEmitter::VisitBinOp` is declared at Interpret.h line 340 but
  defined nowhere — are missing from the repository.  Modelled from the
  spec: a statement lowers its inner expression, and a binary operation
  lowers the left operand, then the right operand, then emits the
  corresponding add/sub instruction. -/
def emitNode (st : EmitterState) : Node → Option EmitterState
  | .module nodes => emitNodes st nodes
  | .stmt inner => emitNode st inner
  | .int v => some { st with byte_code := st.byte_code ++ [INSTR_PUSH, v] }
  | .str s =>
    some { st with
      constants := st.constants ++ [.str s],
      byte_code := st.byte_code ++ [INSTR_PUSH, (st.constants.length : Int)] }
  | .id name =>
    if name = "add" then
      some { st with byte_code := st.byte_code ++ [INSTR_ADD_OP] }
    else if name = "sub" then
      some { st with byte_code := st.byte_code ++ [INSTR_SUB_OP] }
    else
      match lookupSymbol st.symbols name with
      | some symId =>
        some { st with byte_code := st.byte_code ++ [INSTR_PUSH, (symId : Int)] }
      | none => none
  | .assign dst src =>
    let st0 :=
      match dst with
      | .id name =>
        if (lookupSymbol st.symbols name).isSome then st
        else { st with symbols := st.symbols ++ [(name, st.symbols.length)] }
      | _ => st
    match emitNode st0 dst with
    | some st1 =>
      match emitNode st1 src with
      | some st2 => some { st2 with byte_code := st2.byte_code ++ [INSTR_STORE] }
      | none => none
    | none => none
  | .binop k lhs rhs =>
    match emitNode st lhs with
    | some st1 =>
      match emitNode st1 rhs with
      | some st2 =>
        some { st2 with byte_code := st2.byte_code ++
          [if k = .BINOP_ADD then INSTR_ADD_OP else INSTR_SUB_OP] }
      | none => none
    | none => none
  | .call func args =>
    match emitNodes st args with
    | some st1 => emitNode st1 func
    | none => none

/-- `VisitNodeSequence` (Interpret.h lines 17-19). -/
def emitNodes (st : EmitterState) : List Node → Option EmitterState
  | [] => some st
  | n :: rest =>
    match emitNode st n with
    | some st1 => emitNodes st1 rest
    | none => none

end

/-- The evaluator's mutable state during `Interpret` (Interpret.cpp
lines 194-251): the local instruction pointer `i`, the evaluation stack
(`std::vector<int64_t>`, top at the back) and the id-to-value symbol
store. -/
structure EvalState where
  ip : Nat
  eval_stack : List Int
  symbol_table : List (Nat × Int)
deriving DecidableEq, Repr

/-- `unordered_map::operator[]`-style insert-or-update on the store. -/
def setAssoc : List (Nat × Int) → Nat → Int → List (Nat × Int)
  | [], k, v => [(k, v)]
  | (k1, v1) :: rest, k, v =>
    if k1 = k then (k, v) :: rest else (k1, v1) :: setAssoc rest k v

/-- `unordered_map::find` on the store. -/
def lookupAssoc (t : List (Nat × Int)) (k : Nat) : Option Int :=
  (t.find? (fun p => decide (p.1 = k))).map (fun p => p.2)

/-- Pop the top two stack values (`back`, `pop_back`, `back`,
`pop_back`): `some (top, second, rest)`, or `none` when the guarding
`assert(eval_stack_.size() >= 2)` fires. -/
def popTwo (stack : List Int) : Option (Int × Int × List Int) :=
  match stack.getLast? with
  | none => none
  | some top =>
    match stack.dropLast.getLast? with
    | none => none
    | some second => some (top, second, stack.dropLast.dropLast)

/-- Outcome of one iteration of the `Interpret` loop. -/
inductive StepRes where
  | halt
  | next (s : EvalState)
  | fatal
  | oob
deriving DecidableEq, Repr

/-- One iteration of `ByteCodeEvaluator::Interpret`'s `while` loop
(Interpret.cpp lines 196-250).  Faithful details: the `switch` is on
the slot's integer value, and a value matching no case falls through
the switch leaving `i` (and everything else) unchanged, so the loop
spins forever; `INSTR_PUSH` reads the operand slot `codes[i + 1]`
guarded only by the vacuous `assert(i <= codes.size() - 1)`, so a
`push` in the final slot reads past the end of the vector (`oob`);
`INSTR_CALL` is `assert(0)`; the stack-underflow and unknown-symbol
asserts are `fatal`.  The `store` destination id is the popped
`int64_t` converted to `uint64_t`. -/
def evalStep (codes : List Int) (s : EvalState) : StepRes :=
  match listAt codes s.ip with
  | none => .halt
  | some code =>
    if code = INSTR_PUSH then
      match listAt codes (s.ip + 1) with
      | some v => .next ⟨s.ip + 2, s.eval_stack ++ [v], s.symbol_table⟩
      | none => .oob
    else if code = INSTR_ADD_OP then
      match popTwo s.eval_stack with
      | some (rhs, lhs, rest) =>
        .next ⟨s.ip + 1, rest ++ [lhs + rhs], s.symbol_table⟩
      | none => .fatal
    else if code = INSTR_SUB_OP then
      match popTwo s.eval_stack with
      | some (rhs, lhs, rest) =>
        .next ⟨s.ip + 1, rest ++ [lhs - rhs], s.symbol_table⟩
      | none => .fatal
    else if code = INSTR_CALL then
      .fatal
    else if code = INSTR_STORE then
      match popTwo s.eval_stack with
      | some (val, dst, rest) =>
        let dstId := (dst % (2 ^ 64 : Int)).toNat
        if (lookupAssoc s.symbol_table dstId).isSome then
          .next ⟨s.ip + 1, rest, setAssoc s.symbol_table dstId val⟩
        else
          .fatal
      | none => .fatal
    else
      .next s

/-- Outcome of a full `Interpret` run. -/
inductive InterpRes where
  | ok (s : EvalState)
  | fatal
  | oob
  | outOfFuel
deriving DecidableEq, Repr

/-- The `while` loop of `ByteCodeEvaluator::Interpret`, fuelled. -/
def InterpretAux (fuel : Nat) (codes : List Int) (s : EvalState) : InterpRes :=
  match fuel with
  | 0 => .outOfFuel
  | fuel + 1 =>
    match evalStep codes s with
    | .halt => .ok s
    | .next s2 => InterpretAux fuel codes s2
    | .fatal => .fatal
    | .oob => .oob

/-- `ByteCodeEvaluator::Interpret`.  Every implemented instruction
advances `i` by at least one, so `codes.length + 1` iterations cover
every terminating run; `outOfFuel` embeds the spinning unknown-opcode
loop. -/
def Interpret (codes : List Int) (s : EvalState) : InterpRes :=
  InterpretAux (codes.length + 1) codes s

/-- `ByteCodeEvaluator::InitializeSymbolTable` (Interpret.h lines
374-379): write a zero into the store for every emitted symbol id,
on top of whatever the store already holds. -/
def InitializeSymbolTable (symbols : List (String × Nat))
    (tbl : List (Nat × Int)) : List (Nat × Int) :=
  symbols.foldl (fun t p => setAssoc t p.2 0) tbl

/-- The `Compiler` of lang.cpp (lines 14-96): the token vector, the
owned module pointer, the emitter, and the evaluator's persistent state
(its evaluation stack, constants copy and runtime symbol store). -/
structure Compiler where
  tokens : List Token := []
  module_ptr : Option Node := none
  emitter : EmitterState := {}
  eval_stack : List Int := []
  eval_constants : List EvalValue := []
  symbol_table : List (Nat × Int) := []

/-- `Compiler::ResetComponents` (lang.cpp lines 68-74): clear the token
vector, delete the module, and reset the emitter's and evaluator's
components. -/
def Compiler.ResetComponents (c : Compiler) : Compiler :=
  { c with
    tokens := [],
    module_ptr := none,
    emitter := ⟨[], [], []⟩,
    eval_stack := [],
    eval_constants := [],
    symbol_table := [] }

/-- `Compiler::ResetAndCompile` (lang.cpp lines 52-66): reset, then
`Run` (lex, parse, `GenerateByteCode`, `EvaluateByteCode`), then
`getOnlyEvalResult`.  The outer `Option` is `none` exactly when the run
has no defined outcome at all (an out-of-range read or a diverging
loop); otherwise the pair holds the compiler state reached and
`some result` when every assertion passed, `none` when an assertion
aborted the run (`Run`'s lex/parse asserts, an emission-time unknown
symbol, an evaluator assert, or `getOnlyEvalResult`'s
`assert(eval_.getEvalStack().size() == 1)`). -/
def Compiler.ResetAndCompile (c : Compiler) (input : String) :
    Option (Compiler × Option Int) :=
  let c0 := c.ResetComponents
  match ReadTokens input with
  | .oobRead => none
  | .outOfFuel => none
  | .fail _ _ toks => some ({ c0 with tokens := toks }, none)
  | .ok toks =>
    let c1 := { c0 with tokens := toks }
    match ReadModule toks with
    | .oob => none
    | .outOfFuel => none
    | .bug => some (c1, none)
    | .err _ _ _ => some (c1, none)
    | .ok m _ =>
      let c2 := { c1 with module_ptr := some m }
      match emitNode c2.emitter m with
      | none => some (c2, none)
      | some em =>
        let tbl := InitializeSymbolTable em.symbols c2.symbol_table
        let c3 := { c2 with
          emitter := em, eval_constants := em.constants, symbol_table := tbl }
        match Interpret em.byte_code ⟨0, c3.eval_stack, tbl⟩ with
        | .oob => none
        | .outOfFuel => none
        | .fatal => some (c3, none)
        | .ok fin =>
          let c4 := { c3 with
            eval_stack := fin.eval_stack, symbol_table := fin.symbol_table }
          if fin.eval_stack.length = 1 then
            some (c4, fin.eval_stack.getLast?)
          else
            some (c4, none)


/-! ### Derived definitions and lemmas -/

/-- The nested `(add A B)` / `(sub A B)` forms over integer literals
that the claims quantify over. -/
def IsIntBinOpTree : Node → Bool
  | .int _ => true
  | .binop _ lhs rhs => IsIntBinOpTree lhs && IsIntBinOpTree rhs
  | _ => false

/-- The exact integer value such a form denotes. -/
def denoteTree : Node → Int
  | .int v => v
  | .binop .BINOP_ADD lhs rhs => denoteTree lhs + denoteTree rhs
  | .binop .BINOP_SUB lhs rhs => denoteTree lhs - denoteTree rhs
  | _ => 0

/-- The bytecode such a form lowers to. -/
def treeCode : Node → List Int
  | .int v => [INSTR_PUSH, v]
  | .binop k lhs rhs =>
    treeCode lhs ++ treeCode rhs ++
      [if k = .BINOP_ADD then INSTR_ADD_OP else INSTR_SUB_OP]
  | _ => []

/-- The number of evaluator loop iterations that bytecode takes. -/
def treeSteps : Node → Nat
  | .int _ => 1
  | .binop _ lhs rhs => treeSteps lhs + treeSteps rhs + 1
  | _ => 0

/-- Emission followed by evaluation at the whole-program level:
`ByteCodeEmitter::ConvertToByteCode` on a fresh emitter, then
`ByteCodeEvaluator` construction and `Interpret`, exactly as in
`ShortTest` (lang.cpp lines 143-173); returns the final evaluation
stack. -/
def CompileAndRunAST (ast : Node) : Option (List Int) :=
  match emitNode {} ast with
  | some em =>
    match Interpret em.byte_code ⟨0, [], InitializeSymbolTable em.symbols []⟩ with
    | .ok fin => some fin.eval_stack
    | _ => none
  | none => none

/-- Parse a token vector, emit bytecode from a fresh emitter and run
it, exactly the stage sequence of the lang.cpp tests; returns the final
emitter state and the evaluation outcome. -/
def RunFromTokens (toks : List Token) : Option (EmitterState × InterpRes) :=
  match ReadModule toks with
  | .ok m _ =>
    match emitNode {} m with
    | some em =>
      some (em, Interpret em.byte_code ⟨0, [], InitializeSymbolTable em.symbols []⟩)
    | none => none
  | _ => none


theorem listAt_append_right {α : Type} (pre l : List α) (i : Nat) :
    listAt (pre ++ l) (pre.length + i) = listAt l i := by
  induction pre with
  | nil => simp [listAt]
  | cons x xs ih =>
    have h : (x :: xs).length + i = (xs.length + i) + 1 := by
      simp [List.length_cons]; omega
    rw [h]
    show listAt (x :: (xs ++ l)) ((xs.length + i) + 1) = listAt l i
    rw [listAt]
    exact ih

theorem listAt_none {α : Type} (l : List α) (i : Nat) (h : l.length ≤ i) :
    listAt l i = none := by
  induction l generalizing i with
  | nil => cases i <;> simp [listAt]
  | cons x xs ih =>
    cases i with
    | zero => simp at h
    | succ n =>
      rw [listAt]
      exact ih n (by simp at h; omega)

theorem listAt_isSome {α : Type} (l : List α) (i : Nat) (x : α)
    (h : listAt l i = some x) : i < l.length := by
  by_contra hc
  rw [listAt_none l i (by omega)] at h
  exact absurd h (by simp)

theorem listAt_mem {α : Type} : ∀ (l : List α) (i : Nat) (x : α),
    listAt l i = some x → x ∈ l
  | [], _, _, h => by simp [listAt] at h
  | a :: rest, 0, x, h => by
    simp [listAt] at h
    simp [h]
  | a :: rest, n + 1, x, h => by
    rw [listAt] at h
    exact List.mem_cons_of_mem a (listAt_mem rest n x h)

theorem listAt_drop_cons {α : Type} : ∀ (l : List α) (i : Nat) (x : α),
    listAt l i = some x → l.drop i = x :: l.drop (i + 1)
  | [], _, _, h => by simp [listAt] at h
  | a :: rest, 0, x, h => by
    simp [listAt] at h
    simp [h]
  | a :: rest, n + 1, x, h => by
    rw [listAt] at h
    simpa using listAt_drop_cons rest n x h

theorem popTwo_concat2 (stk : List Int) (a b : Int) :
    popTwo (stk ++ [a, b]) = some (b, a, stk) := by
  have h1 : stk ++ [a, b] = (stk ++ [a]) ++ [b] := by simp
  rw [h1]
  simp [popTwo, List.getLast?_concat, List.dropLast_concat]

theorem treeSteps_le_length : ∀ (t : Node), IsIntBinOpTree t = true →
    treeSteps t ≤ (treeCode t).length
  | .int _, _ => by simp [treeSteps, treeCode]
  | .binop k lhs rhs, h => by
    simp only [IsIntBinOpTree, Bool.and_eq_true] at h
    have hl := treeSteps_le_length lhs h.1
    have hr := treeSteps_le_length rhs h.2
    simp [treeSteps, treeCode, List.length_append]
    omega
  | .module _, h => by simp [IsIntBinOpTree] at h
  | .stmt _, h => by simp [IsIntBinOpTree] at h
  | .str _, h => by simp [IsIntBinOpTree] at h
  | .id _, h => by simp [IsIntBinOpTree] at h
  | .assign _ _, h => by simp [IsIntBinOpTree] at h
  | .call _ _, h => by simp [IsIntBinOpTree] at h

/-- Emitting an integer add/sub form only appends its bytecode: the
symbol table and constant pool are untouched. -/
theorem emit_tree : ∀ (t : Node), IsIntBinOpTree t = true → ∀ (st : EmitterState),
    emitNode st t = some { st with byte_code := st.byte_code ++ treeCode t }
  | .int v, _, st => by simp [emitNode, treeCode]
  | .binop k lhs rhs, h, st => by
    simp only [IsIntBinOpTree, Bool.and_eq_true] at h
    rw [emitNode]
    simp only [emit_tree lhs h.1, emit_tree rhs h.2]
    simp [treeCode, List.append_assoc]
  | .module _, h, _ => by simp [IsIntBinOpTree] at h
  | .stmt _, h, _ => by simp [IsIntBinOpTree] at h
  | .str _, h, _ => by simp [IsIntBinOpTree] at h
  | .id _, h, _ => by simp [IsIntBinOpTree] at h
  | .assign _ _, h, _ => by simp [IsIntBinOpTree] at h
  | .call _ _, h, _ => by simp [IsIntBinOpTree] at h


/-- Running the bytecode of an integer add/sub form from any instruction
pointer position, stack and store: it pushes exactly the denoted value
and advances the pointer past its code. -/
theorem interp_tree : ∀ (t : Node), IsIntBinOpTree t = true →
    ∀ (pre post stk : List Int) (tbl : List (Nat × Int)) (fuel : Nat),
    InterpretAux (fuel + treeSteps t) (pre ++ (treeCode t ++ post)) ⟨pre.length, stk, tbl⟩
      = InterpretAux fuel (pre ++ (treeCode t ++ post))
          ⟨pre.length + (treeCode t).length, stk ++ [denoteTree t], tbl⟩
  | .int v, _, pre, post, stk, tbl, fuel => by
    have h0 : listAt (pre ++ ([INSTR_PUSH, v] ++ post)) (pre.length + 0) = some INSTR_PUSH :=
      listAt_append_right pre ([INSTR_PUSH, v] ++ post) 0
    have h1 : listAt (pre ++ ([INSTR_PUSH, v] ++ post)) (pre.length + 1) = some v :=
      listAt_append_right pre ([INSTR_PUSH, v] ++ post) 1
    rw [Nat.add_zero] at h0
    simp only [treeCode, treeSteps, denoteTree, List.length_cons, List.length_nil]
    rw [InterpretAux]
    simp only [evalStep, h0, h1]
    norm_num [INSTR_PUSH]
  | .binop k lhs rhs, h, pre, post, stk, tbl, fuel => by
    simp only [IsIntBinOpTree, Bool.and_eq_true] at h
    have hl := h.1
    have hr := h.2
    cases k with
    | BINOP_ADD =>
      have hcode : treeCode (Node.binop BinOpKind.BINOP_ADD lhs rhs)
          = treeCode lhs ++ treeCode rhs ++ [INSTR_ADD_OP] := by simp [treeCode]
      have hsteps : treeSteps (Node.binop BinOpKind.BINOP_ADD lhs rhs)
          = treeSteps lhs + treeSteps rhs + 1 := by simp [treeSteps]
      have hden : denoteTree (Node.binop BinOpKind.BINOP_ADD lhs rhs)
          = denoteTree lhs + denoteTree rhs := by simp [denoteTree]
      rw [hcode, hsteps, hden]
      have arr : (treeCode lhs ++ treeCode rhs ++ [INSTR_ADD_OP]) ++ post
          = treeCode lhs ++ (treeCode rhs ++ ([INSTR_ADD_OP] ++ post)) := by
        simp [List.append_assoc]
      rw [arr]
      have f1 : fuel + (treeSteps lhs + treeSteps rhs + 1)
          = (fuel + 1 + treeSteps rhs) + treeSteps lhs := by omega
      rw [f1, interp_tree lhs hl pre (treeCode rhs ++ ([INSTR_ADD_OP] ++ post)) stk tbl _]
      have arr2 : pre ++ (treeCode lhs ++ (treeCode rhs ++ ([INSTR_ADD_OP] ++ post)))
          = (pre ++ treeCode lhs) ++ (treeCode rhs ++ ([INSTR_ADD_OP] ++ post)) := by
        simp [List.append_assoc]
      have iplen : pre.length + (treeCode lhs).length = (pre ++ treeCode lhs).length := by
        simp [List.length_append]
      rw [arr2, iplen,
        interp_tree rhs hr (pre ++ treeCode lhs) ([INSTR_ADD_OP] ++ post) (stk ++ [denoteTree lhs]) tbl (fuel + 1)]
      have arr3 : (pre ++ treeCode lhs) ++ (treeCode rhs ++ ([INSTR_ADD_OP] ++ post))
          = ((pre ++ treeCode lhs) ++ treeCode rhs) ++ ([INSTR_ADD_OP] ++ post) := by
        simp [List.append_assoc]
      have iplen2 : (pre ++ treeCode lhs).length + (treeCode rhs).length
          = ((pre ++ treeCode lhs) ++ treeCode rhs).length := by
        simp [List.length_append]
        omega
      rw [arr3, iplen2]
      have hop : listAt (((pre ++ treeCode lhs) ++ treeCode rhs) ++ ([INSTR_ADD_OP] ++ post))
          (((pre ++ treeCode lhs) ++ treeCode rhs).length + 0) = some INSTR_ADD_OP :=
        listAt_append_right _ _ 0
      rw [Nat.add_zero] at hop
      have hpop : (stk ++ [denoteTree lhs]) ++ [denoteTree rhs]
          = stk ++ [denoteTree lhs, denoteTree rhs] := by simp
      rw [InterpretAux]
      simp only [evalStep, hop, hpop, popTwo_concat2]
      norm_num [INSTR_PUSH, INSTR_ADD_OP, INSTR_SUB_OP, INSTR_CALL, INSTR_STORE]
      congr 1
    | BINOP_SUB =>
      have hcode : treeCode (Node.binop BinOpKind.BINOP_SUB lhs rhs)
          = treeCode lhs ++ treeCode rhs ++ [INSTR_SUB_OP] := by
        simp [treeCode, INSTR_ADD_OP, INSTR_SUB_OP]
      have hsteps : treeSteps (Node.binop BinOpKind.BINOP_SUB lhs rhs)
          = treeSteps lhs + treeSteps rhs + 1 := by simp [treeSteps]
      have hden : denoteTree (Node.binop BinOpKind.BINOP_SUB lhs rhs)
          = denoteTree lhs - denoteTree rhs := by simp [denoteTree]
      rw [hcode, hsteps, hden]
      have arr : (treeCode lhs ++ treeCode rhs ++ [INSTR_SUB_OP]) ++ post
          = treeCode lhs ++ (treeCode rhs ++ ([INSTR_SUB_OP] ++ post)) := by
        simp [List.append_assoc]
      rw [arr]
      have f1 : fuel + (treeSteps lhs + treeSteps rhs + 1)
          = (fuel + 1 + treeSteps rhs) + treeSteps lhs := by omega
      rw [f1, interp_tree lhs hl pre (treeCode rhs ++ ([INSTR_SUB_OP] ++ post)) stk tbl _]
      have arr2 : pre ++ (treeCode lhs ++ (treeCode rhs ++ ([INSTR_SUB_OP] ++ post)))
          = (pre ++ treeCode lhs) ++ (treeCode rhs ++ ([INSTR_SUB_OP] ++ post)) := by
        simp [List.append_assoc]
      have iplen : pre.length + (treeCode lhs).length = (pre ++ treeCode lhs).length := by
        simp [List.length_append]
      rw [arr2, iplen,
        interp_tree rhs hr (pre ++ treeCode lhs) ([INSTR_SUB_OP] ++ post) (stk ++ [denoteTree lhs]) tbl (fuel + 1)]
      have arr3 : (pre ++ treeCode lhs) ++ (treeCode rhs ++ ([INSTR_SUB_OP] ++ post))
          = ((pre ++ treeCode lhs) ++ treeCode rhs) ++ ([INSTR_SUB_OP] ++ post) := by
        simp [List.append_assoc]
      have iplen2 : (pre ++ treeCode lhs).length + (treeCode rhs).length
          = ((pre ++ treeCode lhs) ++ treeCode rhs).length := by
        simp [List.length_append]
        omega
      rw [arr3, iplen2]
      have hop : listAt (((pre ++ treeCode lhs) ++ treeCode rhs) ++ ([INSTR_SUB_OP] ++ post))
          (((pre ++ treeCode lhs) ++ treeCode rhs).length + 0) = some INSTR_SUB_OP :=
        listAt_append_right _ _ 0
      rw [Nat.add_zero] at hop
      have hpop : (stk ++ [denoteTree lhs]) ++ [denoteTree rhs]
          = stk ++ [denoteTree lhs, denoteTree rhs] := by simp
      rw [InterpretAux]
      simp only [evalStep, hop, hpop, popTwo_concat2]
      norm_num [INSTR_PUSH, INSTR_ADD_OP, INSTR_SUB_OP, INSTR_CALL, INSTR_STORE]
      congr 1
  | .module _, h, _, _, _, _, _ => by simp [IsIntBinOpTree] at h
  | .stmt _, h, _, _, _, _, _ => by simp [IsIntBinOpTree] at h
  | .str _, h, _, _, _, _, _ => by simp [IsIntBinOpTree] at h
  | .id _, h, _, _, _, _, _ => by simp [IsIntBinOpTree] at h
  | .assign _ _, h, _, _, _, _, _ => by simp [IsIntBinOpTree] at h
  | .call _ _, h, _, _, _, _, _ => by simp [IsIntBinOpTree] at h

theorem compileAndRunAST_tree (t : Node) (h : IsIntBinOpTree t = true) :
    CompileAndRunAST (.module [.stmt t]) = some [denoteTree t] := by
  have hstep : emitNode ({} : EmitterState) (.stmt t) = some ⟨[], treeCode t, []⟩ := by
    have h2 := emit_tree t h {}
    calc emitNode ({} : EmitterState) (.stmt t) = emitNode {} t := rfl
    _ = some ⟨[], treeCode t, []⟩ := by rw [h2]; simp
  have hemit : emitNode ({} : EmitterState) (.module [.stmt t]) = some ⟨[], treeCode t, []⟩ := by
    show emitNodes {} [Node.stmt t] = _
    simp only [emitNodes, hstep]
  simp only [CompileAndRunAST, hemit]
  have hs := treeSteps_le_length t h
  have hfuel : (treeCode t).length + 1 = ((treeCode t).length + 1 - treeSteps t) + treeSteps t := by
    omega
  rw [Interpret, hfuel]
  have hmain := interp_tree t h [] [] [] [] ((treeCode t).length + 1 - treeSteps t)
  simp only [List.nil_append, List.append_nil, List.length_nil, Nat.zero_add] at hmain
  rw [show InitializeSymbolTable [] [] = [] from rfl, hmain]
  obtain ⟨k, hk⟩ : ∃ k, (treeCode t).length + 1 - treeSteps t = k + 1 :=
    ⟨(treeCode t).length - treeSteps t, by omega⟩
  rw [hk, InterpretAux]
  have hnone : listAt (treeCode t) (treeCode t).length = none := listAt_none _ _ (le_refl _)
  simp [evalStep, hnone]

/-- The newline branch of the lexer resets `current` (the input
cursor) to zero, so on an input consisting of a newline the loop
revisits the same character forever: out of fuel for every fuel. -/
theorem lex_newline_spin : ∀ (fuel col row : Nat) (acc : List Token),
    ReadTokensAux fuel ['\n'] 0 col row acc = .outOfFuel := by
  intro fuel
  induction fuel with
  | zero => intro col row acc; rfl
  | succ f ih =>
    intro col row acc
    rw [ReadTokensAux]
    norm_num [listAt, isspace]
    exact ih col (row + 1) acc

theorem takeWhile_length_le {α : Type} (p : α → Bool) (l : List α) :
    (l.takeWhile p).length ≤ l.length :=
  (List.takeWhile_sublist p).length_le

/-- On inputs with no double quote and no newline, every loop
iteration either returns or advances `current` by at least one, so the
lexer reads only in-bounds characters and returns a success or failure
status within `input.length + 1` iterations. -/
theorem lex_total : ∀ (fuel : Nat) (input : List Char), '"' ∉ input → '\n' ∉ input →
    ∀ (current col row : Nat) (acc : List Token),
      current ≤ input.length → input.length + 1 ≤ current + fuel →
      (∃ toks, ReadTokensAux fuel input current col row acc = .ok toks) ∨
      (∃ loc c toks, ReadTokensAux fuel input current col row acc = .fail loc c toks) := by
  intro fuel
  induction fuel with
  | zero =>
    intro input _ _ current _ _ _ hle hf
    omega
  | succ f ih =>
    intro input hq hn current col row acc hle hf
    rw [ReadTokensAux]
    cases hmc : listAt input current with
    | none => exact Or.inl ⟨acc, rfl⟩
    | some c =>
      dsimp only
      have hclt : current < input.length := listAt_isSome input current c hmc
      have hcq : c ≠ '"' := fun he => hq (he ▸ listAt_mem input current c hmc)
      have hcn : c ≠ '\n' := fun he => hn (he ▸ listAt_mem input current c hmc)
      by_cases h1 : c = '('
      · rw [if_pos h1]
        exact ih input hq hn (current + 1) _ _ _ (by omega) (by omega)
      rw [if_neg h1]
      by_cases h2 : c = ')'
      · rw [if_pos h2]
        exact ih input hq hn (current + 1) _ _ _ (by omega) (by omega)
      rw [if_neg h2]
      rw [if_neg hcq]
      by_cases h4 : isspace c = true
      · rw [if_pos h4, if_neg hcn]
        exact ih input hq hn (current + 1) _ _ _ (by omega) (by omega)
      rw [if_neg h4]
      have hdrop : input.drop current = c :: input.drop (current + 1) :=
        listAt_drop_cons input current c hmc
      by_cases h5 : isdigit c = true
      · rw [if_pos h5]
        have hrun : ((input.drop current).takeWhile isdigit).length ≥ 1 := by
          rw [hdrop, List.takeWhile_cons, if_pos h5]
          simp
        have hrun2 : current + ((input.drop current).takeWhile isdigit).length ≤ input.length := by
          have := takeWhile_length_le isdigit (input.drop current)
          rw [List.length_drop] at this
          omega
        exact ih input hq hn _ _ _ _ hrun2 (by omega)
      rw [if_neg h5]
      by_cases h6 : isalpha c = true
      · rw [if_pos h6]
        have hrun : ((input.drop current).takeWhile isalpha).length ≥ 1 := by
          rw [hdrop, List.takeWhile_cons, if_pos h6]
          simp
        have hrun2 : current + ((input.drop current).takeWhile isalpha).length ≤ input.length := by
          have := takeWhile_length_le isalpha (input.drop current)
          rw [List.length_drop] at this
          omega
        exact ih input hq hn _ _ _ _ hrun2 (by omega)
      rw [if_neg h6]
      exact Or.inr ⟨_, _, _, rfl⟩



theorem listAt_lt {α : Type} : ∀ (l : List α) (i : Nat), i < l.length →
    ∃ x, listAt l i = some x
  | [], i, h => by simp at h
  | a :: rest, 0, _ => ⟨a, rfl⟩
  | a :: rest, n + 1, h => by
    rw [listAt]
    exact listAt_lt rest n (by simp at h; omega)

/-- The `Interpret` loop exits (rather than executing an instruction)
exactly when the instruction pointer is at or past the end of the
stream. -/
theorem evalStep_halt_iff (codes : List Int) (s : EvalState) :
    evalStep codes s = .halt ↔ codes.length ≤ s.ip := by
  constructor
  · intro h
    by_contra hc
    push_neg at hc
    obtain ⟨x, hx⟩ := listAt_lt codes s.ip hc
    rw [evalStep, hx] at h
    dsimp only at h
    repeat' split at h
    all_goals simp at h
  · intro h
    rw [evalStep, listAt_none codes s.ip h]

/-- Every successfully executed implemented instruction moves the
instruction pointer strictly forward, by one or two slots. -/
theorem evalStep_next_ip (codes : List Int) (s s2 : EvalState)
    (hvalid : listAt codes s.ip = some INSTR_PUSH ∨ listAt codes s.ip = some INSTR_ADD_OP ∨
      listAt codes s.ip = some INSTR_SUB_OP ∨ listAt codes s.ip = some INSTR_STORE)
    (h : evalStep codes s = .next s2) :
    s.ip < s2.ip ∧ s2.ip ≤ s.ip + 2 := by
  rcases hvalid with hv | hv | hv | hv <;>
    · rw [evalStep, hv] at h
      dsimp only at h
      norm_num [INSTR_PUSH, INSTR_ADD_OP, INSTR_SUB_OP, INSTR_CALL, INSTR_STORE] at h
      repeat' split at h
      all_goals first
        | (cases h; simp)
        | simp at h

/-! ### Claim theorems -/

/-- Claim C3: the spec says lexing `(add 2 (sub 4 2));` succeeds with a
final statement-terminator token.  The lexer in src has no case for
`;`, so it stops there with a lex failure at row 0 column 17, having
produced only the nine preceding tokens. -/
theorem C3_lex_semicolon_failure :
    ReadTokens "(add 2 (sub 4 2));" = .fail ⟨0, 17⟩ ';'
      [⟨.TOK_LPAR, ⟨0, 0⟩, "("⟩, ⟨.TOK_ID, ⟨0, 1⟩, "add"⟩, ⟨.TOK_INT, ⟨0, 5⟩, "2"⟩,
       ⟨.TOK_LPAR, ⟨0, 7⟩, "("⟩, ⟨.TOK_ID, ⟨0, 8⟩, "sub"⟩, ⟨.TOK_INT, ⟨0, 12⟩, "4"⟩,
       ⟨.TOK_INT, ⟨0, 14⟩, "2"⟩, ⟨.TOK_RPAR, ⟨0, 15⟩, ")"⟩, ⟨.TOK_RPAR, ⟨0, 16⟩, ")"⟩] ∧
    getFailingCharacter (ReadTokens "(add 2 (sub 4 2));") = some true ∧
    getFailingLocation (ReadTokens "(add 2 (sub 4 2));") = some ⟨0, 17⟩ :=
  ⟨rfl, rfl, rfl⟩

/-- Claim C1: compiling and running `(add 2 (sub 4 2));` aborts at the
lexer (no result), contrary to the claim; from the intended AST, the
emitter (with the Stmt/BinOp lowering modelled from the spec) and the
evaluator compute the exact integer result, `4` on the example and the
exact sum/difference for every nested add/sub form over integer
literals. -/
theorem C1_addsub_compile_run :
    Compiler.ResetAndCompile {} "(add 2 (sub 4 2));" = some
      ({ tokens :=
          [⟨.TOK_LPAR, ⟨0, 0⟩, "("⟩, ⟨.TOK_ID, ⟨0, 1⟩, "add"⟩, ⟨.TOK_INT, ⟨0, 5⟩, "2"⟩,
           ⟨.TOK_LPAR, ⟨0, 7⟩, "("⟩, ⟨.TOK_ID, ⟨0, 8⟩, "sub"⟩, ⟨.TOK_INT, ⟨0, 12⟩, "4"⟩,
           ⟨.TOK_INT, ⟨0, 14⟩, "2"⟩, ⟨.TOK_RPAR, ⟨0, 15⟩, ")"⟩, ⟨.TOK_RPAR, ⟨0, 16⟩, ")"⟩] },
        none) ∧
    emitNode {} (.module [.stmt (.binop .BINOP_ADD (.int 2) (.binop .BINOP_SUB (.int 4) (.int 2)))])
      = some ⟨[], [0, 2, 0, 4, 0, 2, 2, 1], []⟩ ∧
    CompileAndRunAST (.module [.stmt (.binop .BINOP_ADD (.int 2) (.binop .BINOP_SUB (.int 4) (.int 2)))])
      = some [4] ∧
    (∀ t : Node, IsIntBinOpTree t = true →
      CompileAndRunAST (.module [.stmt t]) = some [denoteTree t]) :=
  ⟨rfl, rfl, rfl, compileAndRunAST_tree⟩

/-- Witness for C1: the general arithmetic part at the literal `7`. -/
theorem C1_addsub_compile_run_witness :
    CompileAndRunAST (.module [.stmt (.int 7)]) = some [7] :=
  C1_addsub_compile_run.2.2.2 (.int 7) rfl

/-- Claim C2: lexing `def x 2; (add x 5);` fails at the first `;`; from
the intended token sequence, the bytecode holds exactly one symbol id
for `x` (id 0), but the read of `x` is lowered by `VisitID` to
`INSTR_PUSH` of the symbol id — no load instruction exists — so the
program computes 0 + 5 = 5, not 7. -/
theorem C2_def_add_pipeline :
    ReadTokens "def x 2; (add x 5);" = .fail ⟨0, 7⟩ ';'
      [⟨.TOK_DEF, ⟨0, 0⟩, "def"⟩, ⟨.TOK_ID, ⟨0, 4⟩, "x"⟩, ⟨.TOK_INT, ⟨0, 6⟩, "2"⟩] ∧
    RunFromTokens
      [⟨.TOK_DEF, {}, "def"⟩, ⟨.TOK_ID, {}, "x"⟩, ⟨.TOK_INT, {}, "2"⟩, ⟨.TOK_SEMICOL, {}, ";"⟩,
       ⟨.TOK_LPAR, {}, "("⟩, ⟨.TOK_ID, {}, "add"⟩, ⟨.TOK_ID, {}, "x"⟩, ⟨.TOK_INT, {}, "5"⟩,
       ⟨.TOK_RPAR, {}, ")"⟩, ⟨.TOK_SEMICOL, {}, ";"⟩]
      = some (⟨[("x", 0)], [0, 0, 0, 2, 4, 0, 0, 0, 5, 1], []⟩, .ok ⟨10, [5], [(0, 2)]⟩) :=
  ⟨rfl, rfl⟩

/-- Claim C4 counterexample: the token sequence `[(]` has an unmatched
left paren, yet parsing fails with the generic kind, not the
unmatched-left-paren kind. -/
theorem C4_unmatched_lparen_counterexample :
    ReadModule [⟨.TOK_LPAR, ⟨0, 0⟩, "("⟩]
      = .err .PARSE_FAIL ⟨0, 0⟩ ⟨.TOK_LPAR, ⟨0, 0⟩, "("⟩ ∧
    ParseStatusKind.PARSE_FAIL ≠ ParseStatusKind.PARSE_FAIL_NO_RPAR :=
  ⟨rfl, by decide⟩

/-- Claim C4 amended: a generic call whose callee was read but whose
input ends before `)` fails with the unmatched-left-paren kind; if the
input ends while the callee or an operand is still expected, the
failure is the generic kind; an add/sub form whose input ends where an
operand or the closing paren is required reads past the end of the
token vector. -/
theorem C4_unmatched_lparen_amended :
    (∀ name : String, name ≠ "add" → name ≠ "sub" →
      ReadModule [⟨.TOK_LPAR, ⟨0, 0⟩, "("⟩, ⟨.TOK_ID, ⟨0, 1⟩, name⟩]
        = .err .PARSE_FAIL_NO_RPAR ⟨0, 1⟩ ⟨.TOK_ID, ⟨0, 1⟩, name⟩) ∧
    ReadModule [⟨.TOK_LPAR, ⟨0, 0⟩, "("⟩, ⟨.TOK_ID, ⟨0, 1⟩, "add"⟩, ⟨.TOK_INT, ⟨0, 5⟩, "1"⟩]
      = .err .PARSE_FAIL ⟨0, 5⟩ ⟨.TOK_INT, ⟨0, 5⟩, "1"⟩ ∧
    ReadModule [⟨.TOK_LPAR, ⟨0, 0⟩, "("⟩, ⟨.TOK_ID, ⟨0, 1⟩, "add"⟩, ⟨.TOK_INT, ⟨0, 5⟩, "1"⟩,
      ⟨.TOK_INT, ⟨0, 7⟩, "2"⟩] = .oob :=
  ⟨fun name h1 h2 => by
    simp [ReadModule, ReadModuleAux, ReadStmt, ReadNode, ReadCall, ReadCallArgs,
      ReadBinOpOperands, ReadDefine, listAt, h1, h2],
    rfl, rfl⟩

/-- Witness for the C4 amended theorem at the callee name `foo`. -/
theorem C4_unmatched_lparen_amended_witness :
    ReadModule [⟨.TOK_LPAR, ⟨0, 0⟩, "("⟩, ⟨.TOK_ID, ⟨0, 1⟩, "foo"⟩]
      = .err .PARSE_FAIL_NO_RPAR ⟨0, 1⟩ ⟨.TOK_ID, ⟨0, 1⟩, "foo"⟩ :=
  C4_unmatched_lparen_amended.1 "foo" (by decide) (by decide)

/-- Claim C5: `(add 1 2 3)` fails parsing with the dedicated
too-many-binary-operator-operands kind at the third operand, and the
same holds for `sub` and for any continuation of the token stream
after the third operand — never a silent truncation to two operands. -/
theorem C5_too_many_binop_operands :
    ReadModule [⟨.TOK_LPAR, ⟨0, 0⟩, "("⟩, ⟨.TOK_ID, ⟨0, 1⟩, "add"⟩, ⟨.TOK_INT, ⟨0, 5⟩, "1"⟩,
        ⟨.TOK_INT, ⟨0, 7⟩, "2"⟩, ⟨.TOK_INT, ⟨0, 9⟩, "3"⟩, ⟨.TOK_RPAR, ⟨0, 10⟩, ")"⟩,
        ⟨.TOK_SEMICOL, ⟨0, 11⟩, ";"⟩]
      = .err .PARSE_FAIL_TOO_MANY_BINOP_OPERANDS ⟨0, 9⟩ ⟨.TOK_INT, ⟨0, 9⟩, "3"⟩ ∧
    (∀ rest : List Token,
      ReadModuleAux 14 ([⟨.TOK_LPAR, {}, "("⟩, ⟨.TOK_ID, {}, "add"⟩, ⟨.TOK_INT, {}, "1"⟩,
          ⟨.TOK_INT, {}, "2"⟩, ⟨.TOK_INT, {}, "3"⟩] ++ rest) 0 []
        = .err .PARSE_FAIL_TOO_MANY_BINOP_OPERANDS {} ⟨.TOK_INT, {}, "3"⟩) ∧
    (∀ rest : List Token,
      ReadModuleAux 14 ([⟨.TOK_LPAR, {}, "("⟩, ⟨.TOK_ID, {}, "sub"⟩, ⟨.TOK_INT, {}, "1"⟩,
          ⟨.TOK_INT, {}, "2"⟩, ⟨.TOK_INT, {}, "3"⟩] ++ rest) 0 []
        = .err .PARSE_FAIL_TOO_MANY_BINOP_OPERANDS {} ⟨.TOK_INT, {}, "3"⟩) :=
  ⟨rfl, fun _ => rfl, fun _ => rfl⟩

/-- Claim C6: `ResetAndCompile` clears every compiler component before
compiling, so its entire outcome — token vector, AST, bytecode stream,
constant pool, symbol table, runtime store and final result — is a
function of the source text alone: runs from any two prior compiler
states (in particular two back-to-back runs on one instance) coincide
byte for byte. -/
theorem C6_reset_and_compile_deterministic (c1 c2 : Compiler) (input : String) :
    Compiler.ResetAndCompile c1 input = Compiler.ResetAndCompile c2 input := rfl

/-- Claim C7: whitespace produces no token, but the newline branch of
the lexer resets the input cursor `current` — not the column counter —
so lexing an input containing a newline re-reads from the start forever
and never consumes the whole input. -/
theorem C7_newline_diverges :
    ReadTokens " a" = .ok [⟨.TOK_ID, ⟨0, 1⟩, "a"⟩] ∧
    ReadTokens "\n" = .outOfFuel ∧
    (∀ fuel col row acc, ReadTokensAux fuel ['\n'] 0 col row acc = .outOfFuel) :=
  ⟨rfl, rfl, lex_newline_spin⟩

/-- Claim C8: lexing stops immediately at an unrecognised character and
the failure stores that character and its location, but the accessor
`getFailingCharacter` is declared with return type `bool`, so the two
distinct failing characters `#` and `!` are both reported as `true` —
the exact character cannot be retrieved. -/
theorem C8_failing_character_bool :
    ReadTokens "#" = .fail ⟨0, 0⟩ '#' [] ∧
    ReadTokens "!" = .fail ⟨0, 0⟩ '!' [] ∧
    getFailingCharacter (ReadTokens "#") = some true ∧
    getFailingCharacter (ReadTokens "!") = some true ∧
    getFailingLocation (ReadTokens "#") = some ⟨0, 0⟩ ∧
    ('#' : Char) ≠ '!' :=
  ⟨rfl, rfl, rfl, rfl, rfl, by decide⟩

/-- Claim C9 counterexample: a slot holding the value 9 decodes to no
implemented opcode; the `switch` falls through leaving the state —
including the instruction pointer — unchanged, so the loop spins
forever and never passes the end of the stream.  A `push` in the final
slot reads past the end of the stream instead of halting. -/
theorem C9_unknown_opcode_counterexample :
    evalStep [9] ⟨0, [], []⟩ = .next ⟨0, [], []⟩ ∧
    InterpretAux 100 [9] ⟨0, [], []⟩ = .outOfFuel ∧
    Interpret [0] ⟨0, [], []⟩ = .oob :=
  ⟨rfl, rfl, rfl⟩

/-- Claim C9 amended: the evaluator halts exactly when the instruction
pointer is at or past the end of the stream, and every successfully
executed slot holding an implemented opcode (`push`, `add`, `sub`,
`store`) moves the pointer strictly forward by one or two slots — no
jumps and no backward motion. -/
theorem C9_step_monotone_amended (codes : List Int) (s : EvalState) :
    (evalStep codes s = .halt ↔ codes.length ≤ s.ip) ∧
    (∀ s2 : EvalState,
      (listAt codes s.ip = some INSTR_PUSH ∨ listAt codes s.ip = some INSTR_ADD_OP ∨
        listAt codes s.ip = some INSTR_SUB_OP ∨ listAt codes s.ip = some INSTR_STORE) →
      evalStep codes s = .next s2 → s.ip < s2.ip ∧ s2.ip ≤ s.ip + 2) :=
  ⟨evalStep_halt_iff codes s, fun s2 hv h => evalStep_next_ip codes s s2 hv h⟩

/-- Witness for the C9 amended theorem: one `push` step from pointer 0
lands on pointer 2. -/
theorem C9_step_monotone_amended_witness : (0 : Nat) < 2 ∧ (2 : Nat) ≤ 0 + 2 :=
  (C9_step_monotone_amended [0, 7] ⟨0, [], []⟩).2 ⟨2, [7], []⟩ (Or.inl rfl) rfl

/-- Claim C10 counterexample: an opening double quote that is never
closed makes the string-literal loop read past the end of the input —
the out-of-range read is reached, not unreachable. -/
theorem C10_unmatched_quote_counterexample :
    ReadTokens "\"" = .oobRead ∧ ReadTokens "\"abc" = .oobRead :=
  ⟨rfl, rfl⟩

/-- Claim C10 amended: on every input containing neither a double quote
nor a newline, the lexer reads only in-bounds characters and returns a
success or failure status. -/
theorem C10_lexer_safe_amended (input : String)
    (hq : '"' ∉ input.toList) (hn : '\n' ∉ input.toList) :
    (∃ toks, ReadTokens input = .ok toks) ∨
    (∃ loc c toks, ReadTokens input = .fail loc c toks) :=
  lex_total (input.toList.length + 1) input.toList hq hn 0 0 0 []
    (Nat.zero_le _) (by omega)

/-- Witness for the C10 amended theorem at the input `ab`. -/
theorem C10_lexer_safe_amended_witness :
    (∃ toks, ReadTokens "ab" = .ok toks) ∨
    (∃ loc c toks, ReadTokens "ab" = .fail loc c toks) :=
  C10_lexer_safe_amended "ab" (by decide) (by decide)

end lang
